import Mathlib

/-!
Verification of the mongoproxy byte-shuttle (src/main.rs) against its
specification. The async functions of main.rs are embedded as pure Lean
functions over explicit schedules of I/O outcomes:

* `proxy_bytes` (main.rs:304-338) becomes a recursive function from a list
  of read-step outcomes to the trace of socket writes, observer-channel
  sends and peer-notify tokens it produces, together with its return value.
* `track_messages` (main.rs:342-365) becomes a function from the list of
  framer outcomes (`MongoMessage::from_reader` results, which live in the
  library crate outside this file) to the callback invocations and result.
* the accept-loop body (main.rs:158-215) and the join point of
  `handle_connection` (main.rs:294-298) become functions recording which
  metric counters are incremented, as lists of label increments.
* `format_client_address` (main.rs:376-382) and `parse_proxy_addresses`
  (main.rs:385-394) are embedded directly on character lists.
-/

namespace Mongoproxy

/-- Kinds of `io::Error` distinguished by the program: the code only ever
tests `e.kind() == io::ErrorKind::UnexpectedEof`; every other kind is
abstracted by a numeric code. -/
inductive ErrKind where
  | unexpectedEof : ErrKind
  | other : Nat → ErrKind
deriving DecidableEq

/-- One iteration of the `proxy_bytes` read loop, as seen from outside:
the chunk returned by `read_from.read` (`[]` models a 0-byte read, i.e.
EOF), the outcome of `write_to.write_all` (`none` = success), and whether
`tracker_channel.send` would succeed (receiver still alive). A failing
read is `readErr`. Bytes are modelled as `Nat`. -/
inductive Step where
  | read (chunk : List Nat) (wres : Option ErrKind) (sendOk : Bool)
  | readErr (e : ErrKind)
deriving DecidableEq

/-- Observable actions of `proxy_bytes`, in program order: a chunk written
to the opposite socket (`write_to.write_all`, main.rs:318), a chunk
delivered on the observer channel (`tracker_channel.send`, main.rs:323),
and a poison token pushed onto the peer-notify channel
(`notify_channel.send(Err(..))`, main.rs:330). -/
inductive PEvent where
  | write (chunk : List Nat)
  | observe (chunk : List Nat)
  | notify (e : ErrKind)
deriving DecidableEq

/-- Shallow embedding of `proxy_bytes` (main.rs:304-338). The first
argument is the `tracker_ok` flag (initialised `true` at main.rs:311).
Returns the event trace and the function result: `none` when the schedule
is exhausted with the loop still running, `some e` when the function
returns `Err(e)`. A 0-byte read returns `UnexpectedEof` (main.rs:335);
a send failure logs, sets `tracker_ok = false` and pushes one
`UnexpectedEof` poison token on the notify channel (main.rs:323-331). -/
def proxy_bytes : Bool → List Step → List PEvent × Option ErrKind
  | _, [] => ([], none)
  | _, .readErr e :: _ => ([], some e)
  | trackerOk, .read chunk wres sendOk :: rest =>
    match chunk with
    | [] => ([], some .unexpectedEof)
    | c0 :: cr =>
      match wres with
      | some e => ([], some e)
      | none =>
        match trackerOk, sendOk with
        | true, true =>
          let r := proxy_bytes true rest
          (.write (c0 :: cr) :: .observe (c0 :: cr) :: r.1, r.2)
        | true, false =>
          let r := proxy_bytes false rest
          (.write (c0 :: cr) :: .notify .unexpectedEof :: r.1, r.2)
        | false, _ =>
          let r := proxy_bytes false rest
          (.write (c0 :: cr) :: r.1, r.2)

/-- The chunks written to the opposite socket, in order. -/
def writtenChunks : List PEvent → List (List Nat)
  | [] => []
  | .write c :: rest => c :: writtenChunks rest
  | .observe _ :: rest => writtenChunks rest
  | .notify _ :: rest => writtenChunks rest

/-- The chunks successfully sent to the observer channel, in order. -/
def observedChunks : List PEvent → List (List Nat)
  | [] => []
  | .observe c :: rest => c :: observedChunks rest
  | .write _ :: rest => observedChunks rest
  | .notify _ :: rest => observedChunks rest

/-- The poison tokens pushed onto the peer-notify channel, in order. -/
def notifyTokens : List PEvent → List ErrKind
  | [] => []
  | .notify e :: rest => e :: notifyTokens rest
  | .write _ :: rest => notifyTokens rest
  | .observe _ :: rest => notifyTokens rest

/-- Bytes written to the opposite socket, flattened. -/
def writtenBytes (evs : List PEvent) : List Nat := (writtenChunks evs).flatten

/-- Bytes delivered to the observer channel, flattened. -/
def observedBytes (evs : List PEvent) : List Nat := (observedChunks evs).flatten

/-- The chunks read from the socket before the loop terminates: data
chunks up to the first 0-byte read or read error. -/
def readChunks : List Step → List (List Nat)
  | [] => []
  | .readErr _ :: _ => []
  | .read [] _ _ :: _ => []
  | .read (c0 :: cr) _ _ :: rest => (c0 :: cr) :: readChunks rest

/-- All `write_all` calls in the schedule succeed. -/
def noWriteFailure : List Step → Bool
  | [] => true
  | .read _ wres _ :: rest => wres.isNone && noWriteFailure rest
  | .readErr _ :: rest => noWriteFailure rest

/-- `xs` is an initial segment of `ys`. -/
def IsPref (xs ys : List Nat) : Prop := ∃ zs, xs ++ zs = ys

theorem ispref_nil (ys : List Nat) : IsPref [] ys := ⟨ys, rfl⟩

theorem ispref_append_left (c : List Nat) {o w : List Nat} (h : IsPref o w) :
    IsPref (c ++ o) (c ++ w) := by
  obtain ⟨zs, hz⟩ := h
  exact ⟨zs, by rw [List.append_assoc, hz]⟩

/-- The forwarding behaviour of the loop, looking only at the socket side:
chunks written and result. Observer and notify channels do not appear. -/
def forwardOnly : List Step → List (List Nat) × Option ErrKind
  | [] => ([], none)
  | .readErr e :: _ => ([], some e)
  | .read [] _ _ :: _ => ([], some .unexpectedEof)
  | .read (c0 :: cr) wres _ :: rest =>
    match wres with
    | some e => ([], some e)
    | none =>
      let r := forwardOnly rest
      ((c0 :: cr) :: r.1, r.2)

/-- Whatever the tracker flag and the fate of the observer sends, the
chunks written to the socket and the returned error are those of the pure
forwarding semantics. -/
theorem proxy_bytes_forward (t : Bool) (s : List Step) :
    writtenChunks (proxy_bytes t s).1 = (forwardOnly s).1 ∧
    (proxy_bytes t s).2 = (forwardOnly s).2 := by
  induction s generalizing t with
  | nil => simp [proxy_bytes, forwardOnly, writtenChunks]
  | cons st rest ih =>
    cases st with
    | readErr e => simp [proxy_bytes, forwardOnly, writtenChunks]
    | read chunk wres sendOk =>
      cases chunk with
      | nil => simp [proxy_bytes, forwardOnly, writtenChunks]
      | cons c0 cr =>
        cases wres with
        | some e => simp [proxy_bytes, forwardOnly, writtenChunks]
        | none =>
          cases t <;> cases sendOk <;>
            simpa [proxy_bytes, forwardOnly, writtenChunks] using ih _

/-- When every write succeeds, the forwarding semantics writes exactly the
chunks read. -/
theorem forwardOnly_eq_readChunks (s : List Step) (h : noWriteFailure s = true) :
    (forwardOnly s).1 = readChunks s := by
  induction s with
  | nil => simp [forwardOnly, readChunks]
  | cons st rest ih =>
    cases st with
    | readErr e => simp [forwardOnly, readChunks]
    | read chunk wres sendOk =>
      cases chunk with
      | nil => simp [forwardOnly, readChunks]
      | cons c0 cr =>
        cases wres with
        | some e => simp [noWriteFailure] at h
        | none =>
          simp only [noWriteFailure, Option.isNone_none, Bool.true_and] at h
          simp [forwardOnly, readChunks, ih h]

/-- C1: Byte-exact forwarding. In every execution of `proxy_bytes` in
which all socket writes succeed, the chunks written to the opposite
socket are exactly the chunks read, in the same order, so the flattened
byte sequences coincide regardless of chunk boundaries: nothing is
rewritten, reordered, inserted, omitted or buffered beyond the read unit. -/
theorem proxy_bytes_byte_exact (t : Bool) (s : List Step)
    (h : noWriteFailure s = true) :
    writtenChunks (proxy_bytes t s).1 = readChunks s ∧
    writtenBytes (proxy_bytes t s).1 = (readChunks s).flatten := by
  have hc : writtenChunks (proxy_bytes t s).1 = readChunks s :=
    (proxy_bytes_forward t s).1.trans (forwardOnly_eq_readChunks s h)
  exact ⟨hc, by rw [writtenBytes, hc]⟩

/-- Witness for C1 at a concrete schedule: two data chunks, then a peer
reset; all writes succeed, the second observer send fails. -/
theorem proxy_bytes_byte_exact_witness :
    noWriteFailure
      [Step.read [1, 2] none true, Step.read [3] none false,
       Step.readErr (ErrKind.other 0)] = true ∧
    (writtenChunks (proxy_bytes true
        [Step.read [1, 2] none true, Step.read [3] none false,
         Step.readErr (ErrKind.other 0)]).1 =
      readChunks
        [Step.read [1, 2] none true, Step.read [3] none false,
         Step.readErr (ErrKind.other 0)] ∧
     writtenBytes (proxy_bytes true
        [Step.read [1, 2] none true, Step.read [3] none false,
         Step.readErr (ErrKind.other 0)]).1 =
      (readChunks
        [Step.read [1, 2] none true, Step.read [3] none false,
         Step.readErr (ErrKind.other 0)]).flatten) :=
  ⟨by decide, proxy_bytes_byte_exact true _ (by decide)⟩

/-- The same schedule with every observer send made to succeed. -/
def stripSends : List Step → List Step
  | [] => []
  | .read c w _ :: rest => .read c w true :: stripSends rest
  | .readErr e :: rest => .readErr e :: stripSends rest

theorem forwardOnly_stripSends (s : List Step) :
    forwardOnly (stripSends s) = forwardOnly s := by
  induction s with
  | nil => rfl
  | cons st rest ih =>
    cases st with
    | readErr e => simp [stripSends, forwardOnly]
    | read chunk wres sendOk =>
      cases chunk with
      | nil => simp [stripSends, forwardOnly]
      | cons c0 cr =>
        cases wres with
        | some e => simp [stripSends, forwardOnly]
        | none => simp [stripSends, forwardOnly, ih]

/-- Once the tracker flag is down, `proxy_bytes` never sends to the
observer channel and never pushes another poison token. -/
theorem proxy_bytes_poisoned_silent (s : List Step) :
    observedChunks (proxy_bytes false s).1 = [] ∧
    notifyTokens (proxy_bytes false s).1 = [] := by
  induction s with
  | nil => simp [proxy_bytes, observedChunks, notifyTokens]
  | cons st rest ih =>
    cases st with
    | readErr e => simp [proxy_bytes, observedChunks, notifyTokens]
    | read chunk wres sendOk =>
      cases chunk with
      | nil => simp [proxy_bytes, observedChunks, notifyTokens]
      | cons c0 cr =>
        cases wres with
        | some e => simp [proxy_bytes, observedChunks, notifyTokens]
        | none =>
          simpa [proxy_bytes, observedChunks, notifyTokens] using ih

/-- C2: Observer failure isolation. Replacing failing observer sends by
successful ones changes neither the chunks written to the opposite socket
nor the result of `proxy_bytes` (so an observer failure never stops
forwarding or produces an error); at the failing send itself the loop
writes the chunk, pushes a single `UnexpectedEof` poison token onto the
peer-notify channel, and continues with the observer channel poisoned,
never sending or notifying again. -/
theorem proxy_bytes_observer_isolation (t : Bool) (s rest : List Step)
    (c0 : Nat) (cr : List Nat) :
    writtenChunks (proxy_bytes t s).1 =
      writtenChunks (proxy_bytes t (stripSends s)).1 ∧
    (proxy_bytes t s).2 = (proxy_bytes t (stripSends s)).2 ∧
    proxy_bytes true (.read (c0 :: cr) none false :: rest) =
      (.write (c0 :: cr) :: .notify .unexpectedEof ::
        (proxy_bytes false rest).1, (proxy_bytes false rest).2) ∧
    notifyTokens (proxy_bytes true (.read (c0 :: cr) none false :: rest)).1 =
      [.unexpectedEof] ∧
    observedChunks (proxy_bytes false rest).1 = [] := by
  refine ⟨?_, ?_, ?_, ?_, (proxy_bytes_poisoned_silent rest).1⟩
  · rw [(proxy_bytes_forward t s).1, (proxy_bytes_forward t (stripSends s)).1,
      forwardOnly_stripSends]
  · rw [(proxy_bytes_forward t s).2, (proxy_bytes_forward t (stripSends s)).2,
      forwardOnly_stripSends]
  · simp [proxy_bytes]
  · simp [proxy_bytes, notifyTokens, (proxy_bytes_poisoned_silent rest).2]

/-- C3 helper: `observedChunks` distributes over trace concatenation. -/
theorem observedChunks_append (p q : List PEvent) :
    observedChunks (p ++ q) = observedChunks p ++ observedChunks q := by
  induction p with
  | nil => simp [observedChunks]
  | cons e rest ih => cases e <;> simp [observedChunks, ih]

/-- C3: Write-before-observe ordering. At every step of every execution
of `proxy_bytes` — that is, for every prefix `p` of the event trace — the
bytes already delivered to the observer channel form an initial segment
of the bytes already written to the opposite socket. -/
theorem proxy_bytes_observe_after_write (t : Bool) (s : List Step)
    (p q : List PEvent) (h : (proxy_bytes t s).1 = p ++ q) :
    IsPref (observedBytes p) (writtenBytes p) := by
  induction s generalizing t p q with
  | nil =>
    have hp : p = [] := by
      have := h.symm
      simp only [proxy_bytes] at this
      exact List.append_eq_nil.mp this |>.1
    subst hp
    exact ispref_nil _
  | cons st rest ih =>
    cases st with
    | readErr e =>
      have hp : p = [] := by
        have := h.symm
        simp only [proxy_bytes] at this
        exact List.append_eq_nil.mp this |>.1
      subst hp
      exact ispref_nil _
    | read chunk wres sendOk =>
      cases chunk with
      | nil =>
        have hp : p = [] := by
          have := h.symm
          simp only [proxy_bytes] at this
          exact List.append_eq_nil.mp this |>.1
        subst hp
        exact ispref_nil _
      | cons c0 cr =>
        cases wres with
        | some e =>
          have hp : p = [] := by
            have := h.symm
            simp only [proxy_bytes] at this
            exact List.append_eq_nil.mp this |>.1
          subst hp
          exact ispref_nil _
        | none =>
          cases t with
          | true =>
            cases sendOk with
            | true =>
              simp only [proxy_bytes] at h
              cases p with
              | nil => exact ispref_nil _
              | cons e1 p1 =>
                injection h with h1 h2
                subst h1
                cases p1 with
                | nil =>
                  exact ⟨writtenBytes [PEvent.write (c0 :: cr)],
                    by simp [observedBytes, observedChunks]⟩
                | cons e2 p2 =>
                  injection h2 with h3 h4
                  subst h3
                  have hpre := ih true p2 q h4
                  simpa [observedBytes, writtenBytes, observedChunks,
                    writtenChunks] using
                    ispref_append_left (c0 :: cr) hpre
            | false =>
              simp only [proxy_bytes] at h
              cases p with
              | nil => exact ispref_nil _
              | cons e1 p1 =>
                injection h with h1 h2
                subst h1
                cases p1 with
                | nil =>
                  exact ⟨writtenBytes [PEvent.write (c0 :: cr)],
                    by simp [observedBytes, observedChunks]⟩
                | cons e2 p2 =>
                  injection h2 with h3 h4
                  subst h3
                  have hobs : observedChunks p2 = [] := by
                    have hfull := (proxy_bytes_poisoned_silent rest).1
                    rw [h4] at hfull
                    rw [show p2.append q = p2 ++ q from rfl,
                      observedChunks_append] at hfull
                    exact List.append_eq_nil.mp hfull |>.1
                  refine ⟨writtenBytes (PEvent.write (c0 :: cr) ::
                    PEvent.notify ErrKind.unexpectedEof :: p2), ?_⟩
                  simp [observedBytes, observedChunks, hobs]
          | false =>
            simp only [proxy_bytes] at h
            cases p with
            | nil => exact ispref_nil _
            | cons e1 p1 =>
              injection h with h1 h2
              subst h1
              have hobs : observedChunks p1 = [] := by
                have hfull := (proxy_bytes_poisoned_silent rest).1
                rw [h2] at hfull
                rw [show p1.append q = p1 ++ q from rfl,
                  observedChunks_append] at hfull
                exact List.append_eq_nil.mp hfull |>.1
              refine ⟨writtenBytes (PEvent.write (c0 :: cr) :: p1), ?_⟩
              simp [observedBytes, observedChunks, hobs]

/-- Witness for C3 at a concrete trace prefix: one chunk forwarded, the
prefix cut between the write and the observe events. -/
theorem proxy_bytes_observe_after_write_witness :
    (proxy_bytes true [Step.read [7] none true]).1 =
      [PEvent.write [7]] ++ [PEvent.observe [7]] ∧
    IsPref (observedBytes [PEvent.write [7]])
      (writtenBytes [PEvent.write [7]]) :=
  ⟨rfl, proxy_bytes_observe_after_write true [Step.read [7] none true]
    [PEvent.write [7]] [PEvent.observe [7]] rfl⟩

/-- Shallow embedding of the join point of `handle_connection`
(main.rs:294-298): `tokio::try_join!` surfaces the first shuttle error
`e`; an `UnexpectedEof` kind is converted to `Ok(())`, anything else is
returned as is. -/
def handle_join : Except ErrKind Unit → Except ErrKind Unit
  | .ok _ => .ok ()
  | .error .unexpectedEof => .ok ()
  | .error e => .error e

/-- Shallow embedding of the counter updates of `conn_handler`
(main.rs:186-201): on `Ok` push the client label on the disconnection
counter, on `Err` push it on the connection-errors counter. The two
returned lists are the increments of `DISCONNECTION_COUNT_TOTAL` and
`CONNECTION_ERRORS_TOTAL` for this connection. -/
def conn_handler_effect (clientAddr : String) :
    Except ErrKind Unit → List String × List String
  | .ok _ => ([clientAddr], [])
  | .error _ => ([], [clientAddr])

/-- C4: Clean-close versus error-close taxonomy. A 0-byte read makes
`proxy_bytes` return `UnexpectedEof`; at the join point an
`UnexpectedEof` from either shuttle yields `Ok` and exactly one
disconnection-counter increment with the client label (and no error
increment), while any non-EOF error is returned from `handle_connection`
and produces exactly one connection-errors increment (and no
disconnection increment). -/
theorem close_taxonomy (t : Bool) (w : Option ErrKind) (sk : Bool)
    (rest : List Step) (a : String) (e : ErrKind)
    (he : e ≠ ErrKind.unexpectedEof) :
    proxy_bytes t (.read [] w sk :: rest) = ([], some .unexpectedEof) ∧
    handle_join (.error .unexpectedEof) = .ok () ∧
    conn_handler_effect a (handle_join (.error .unexpectedEof)) = ([a], []) ∧
    handle_join (.error e) = .error e ∧
    conn_handler_effect a (handle_join (.error e)) = ([], [a]) := by
  have hj : handle_join (.error e) = .error e := by
    cases e with
    | unexpectedEof => exact absurd rfl he
    | other n => rfl
  exact ⟨by cases t <;> rfl, rfl, rfl, hj, by rw [hj]; rfl⟩

/-- Witness for C4 at a concrete non-EOF error (`other 7`, e.g. a
connection reset) and client label. -/
theorem close_taxonomy_witness :
    (ErrKind.other 7 ≠ ErrKind.unexpectedEof) ∧
    (proxy_bytes true [Step.read [] none true] =
      ([], some ErrKind.unexpectedEof) ∧
     handle_join (.error .unexpectedEof) = .ok () ∧
     conn_handler_effect "10.0.0.1" (handle_join (.error .unexpectedEof)) =
       (["10.0.0.1"], []) ∧
     handle_join (.error (.other 7)) = .error (.other 7) ∧
     conn_handler_effect "10.0.0.1" (handle_join (.error (.other 7))) =
       ([], ["10.0.0.1"])) :=
  ⟨by decide, close_taxonomy true none true [] "10.0.0.1" (ErrKind.other 7)
    (by decide)⟩

/-- Shallow embedding of `format_client_address` (main.rs:376-382): the
peer address string is truncated at the first `:` found (`find` returns
the first match, `split_off` keeps the part before it). -/
def format_client_address (s : String) : String :=
  String.mk (s.toList.takeWhile (fun c => c != ':'))

/-- Modelled from the spec: the client label described by the spec,
namely the peer socket address with its trailing `:port` removed (drop
everything from the last `:` on). Used only to compare against
`format_client_address`. -/
def specStripTrailingPort (s : String) : String :=
  String.mk (((s.toList.reverse.dropWhile (fun c => c != ':')).drop 1).reverse)

/-- Outcome of one successful `accept` in `run_accept_loop`
(main.rs:158-215): which handler was spawned (client label and resolved
server address, `none` when the connection is dropped and the loop
continues), and the label increments of
`CONNECTION_COUNT_TOTAL` (main.rs:184) and of any error counter made
during the accept step itself. `remoteAddr` is the configured upstream
(empty in transparent mode), `origDst` the result of
`dstaddr::orig_dst_addr`, which lives in the library crate. -/
structure AcceptResult where
  spawned : Option (String × String)
  estabIncs : List String
  errIncs : List String
deriving DecidableEq

/-- Shallow embedding of the `Ok((stream, peer_addr))` arm of the accept
loop (main.rs:160-209): resolve the target first; on a missing original
destination log and `continue` (main.rs:173-175, with only a TODO for a
counter); only then increment the connection counter (main.rs:184) and
spawn the handler. -/
def accept_step (remoteAddr peer : String) (origDst : Option String) :
    AcceptResult :=
  let clientAddr := format_client_address peer
  if remoteAddr.isEmpty then
    match origDst with
    | some sockaddr =>
      { spawned := some (clientAddr, sockaddr),
        estabIncs := [clientAddr], errIncs := [] }
    | none => { spawned := none, estabIncs := [], errIncs := [] }
  else
    { spawned := some (clientAddr, remoteAddr),
      estabIncs := [clientAddr], errIncs := [] }

/-- C5 counterexample: in transparent mode with no original destination
the connection is indeed dropped and the loop continues, but no error
counter (and no counter at all) is incremented — the code only logs,
with a TODO comment at main.rs:174. -/
theorem accept_no_origdst_counterexample :
    (accept_step "" "10.0.0.7:41000" none).spawned = none ∧
    (accept_step "" "10.0.0.7:41000" none).errIncs = [] ∧
    (accept_step "" "10.0.0.7:41000" none).estabIncs = [] :=
  ⟨rfl, rfl, rfl⟩

/-- C5 amended: when no upstream is configured and `orig_dst` yields no
address, the connection is dropped and the accept loop continues with
the next connection, but no counter is incremented — the failure is only
logged. -/
theorem accept_no_origdst_drops (peer : String) :
    accept_step "" peer none =
      { spawned := none, estabIncs := [], errIncs := [] } := rfl

/-- C6 counterexample: the connection counter is not incremented for a
connection whose target resolution fails — the increment at main.rs:184
sits after the `continue` of the missing-destination branch. -/
theorem connection_count_counterexample :
    (accept_step "" "10.0.0.8:42000" none).estabIncs = [] ∧
    (accept_step "" "10.0.0.8:42000" none).spawned = none :=
  ⟨rfl, rfl⟩

/-- C6 amended: for every accepted socket, the accept loop increments
`client_connections_established_total` with the client-IP label exactly
when target resolution succeeds (the increment happens after resolution),
and a connection whose resolution fails increments nothing. -/
theorem connection_count_after_resolution (r p : String) (d : Option String) :
    (accept_step r p d).estabIncs =
      (if (accept_step r p d).spawned.isSome then [format_client_address p]
       else []) ∧
    (accept_step r p d).errIncs = [] := by
  by_cases hr : r.isEmpty <;> cases d <;>
    simp [accept_step, hr]

theorem takeWhile_until_colon (xs ys : List Char)
    (h : ∀ c ∈ xs, c ≠ ':') :
    (xs ++ ':' :: ys).takeWhile (fun c => c != ':') = xs := by
  induction xs with
  | nil => simp [List.takeWhile]
  | cons a as ih =>
    have ha : (a != ':') = true := by
      simp [bne_iff_ne]
      exact h a (List.mem_cons_self a as)
    have has : ∀ c ∈ as, c ≠ ':' := fun c hc => h c (List.mem_cons_of_mem a hc)
    simp [List.takeWhile, ha, ih has]

theorem dropWhile_until_colon (xs ys : List Char)
    (h : ∀ c ∈ xs, c ≠ ':') :
    (xs ++ ':' :: ys).dropWhile (fun c => c != ':') = ':' :: ys := by
  induction xs with
  | nil => simp [List.dropWhile]
  | cons a as ih =>
    have ha : (a != ':') = true := by
      simp [bne_iff_ne]
      exact h a (List.mem_cons_self a as)
    have has : ∀ c ∈ as, c ≠ ':' := fun c hc => h c (List.mem_cons_of_mem a hc)
    simp [List.dropWhile, ha, ih has]

theorem string_toList_append (a b : String) :
    (a ++ b).toList = a.toList ++ b.toList := String.data_append a b

/-- C7 counterexample: for an IPv6 peer address, `format_client_address`
does not strip the trailing `:port` — it truncates at the first colon,
which sits inside the bracketed IPv6 address. -/
theorem format_client_address_ipv6_counterexample :
    format_client_address "[2001:db8::1]:27017" ≠
      specStripTrailingPort "[2001:db8::1]:27017" ∧
    format_client_address "[2001:db8::1]:27017" = "[2001" := by
  constructor <;> decide

/-- C7 amended: the metrics client label is the peer address string
truncated at the first `:`. For an address whose host part contains no
colon (every IPv4 `ip:port`), this coincides with stripping the trailing
`:port` and leaves the IP; for IPv6 it does not. -/
theorem format_client_address_first_colon (s ip port : String)
    (h : ip.toList.all (fun c => c != ':') = true) :
    format_client_address s =
      String.mk (s.toList.takeWhile (fun c => c != ':')) ∧
    format_client_address (ip ++ ":" ++ port) = ip := by
  have h2 : ∀ c ∈ ip.toList, c ≠ ':' := by
    simpa [List.all_eq_true, bne_iff_ne] using h
  refine ⟨rfl, ?_⟩
  have hsplit : (ip ++ ":" ++ port).toList = ip.toList ++ ':' :: port.toList := by
    rw [string_toList_append, string_toList_append, List.append_assoc]
    rfl
  rw [format_client_address, hsplit, takeWhile_until_colon _ _ h2]
  rfl

/-- Witness for C7 amended at a concrete IPv4 peer address. -/
theorem format_client_address_first_colon_witness :
    ("192.168.0.5" : String).toList.all (fun c => c != ':') = true ∧
    (format_client_address "192.168.0.5:43210" =
      String.mk (("192.168.0.5:43210" : String).toList.takeWhile
        (fun c => c != ':')) ∧
     format_client_address ("192.168.0.5" ++ ":" ++ "43210") = "192.168.0.5") :=
  ⟨by decide, format_client_address_first_colon "192.168.0.5:43210"
    "192.168.0.5" "43210" (by decide)⟩

/-- One outcome of `MongoMessage::from_reader` on the observer byte
stream (the framer lives in the library crate outside this file): either
a framed message, abstracted as a header / message pair of naturals, or
an error of some kind. -/
inductive FrameOutcome where
  | msg (hdr body : Nat)
  | ferr (e : ErrKind)
deriving DecidableEq

/-- Shallow embedding of `track_messages` (main.rs:342-365): process the
framer outcomes in order; invoke `tracker_fn` on every framed message;
on the first error return `Ok(())` when its kind is `UnexpectedEof`
(clean EOF or poison token) and `Err(e)` otherwise. The first component
collects the `tracker_fn` invocations in order; the second is `none`
while the loop is still running. -/
def track_messages :
    List FrameOutcome → List (Nat × Nat) × Option (Except ErrKind Unit)
  | [] => ([], none)
  | .msg hd m :: rest =>
    let r := track_messages rest
    ((hd, m) :: r.1, r.2)
  | .ferr .unexpectedEof :: _ => ([], some (.ok ()))
  | .ferr e :: _ => ([], some (.error e))

/-- C8: Observer task termination. On a framer stream consisting of
successfully framed messages followed by an error, `track_messages`
invokes the callback exactly once per message, in stream order, and
returns `Ok` precisely when the error kind is `UnexpectedEof`, returning
every other error as is; everything after the first error is ignored. -/
theorem track_messages_taxonomy (ms : List (Nat × Nat)) (e : ErrKind)
    (junk : List FrameOutcome) :
    track_messages ((ms.map fun p => FrameOutcome.msg p.1 p.2) ++
        FrameOutcome.ferr e :: junk) =
      (ms, some (if e = ErrKind.unexpectedEof then Except.ok ()
                 else Except.error e)) := by
  induction ms with
  | nil =>
    cases e with
    | unexpectedEof => simp [track_messages]
    | other n => simp [track_messages]
  | cons p ps ih => simp [track_messages, ih]

theorem any_colon_false (xs : List Char)
    (h : xs.all (fun c => c != ':') = true) :
    xs.any (fun c => c == ':') = false := by
  simp only [List.all_eq_true, bne_iff_ne] at h
  simp only [List.any_eq_false]
  intro c hc
  simpa using h c hc

theorem any_colon_true (xs ys : List Char) :
    (xs ++ ':' :: ys).any (fun c => c == ':') = true := by
  simp

theorem string_mk_append (a b : String) :
    String.mk (a.toList ++ b.toList) = a ++ b := by
  rw [← string_toList_append]
  rfl

/-- Shallow embedding of `parse_proxy_addresses` (main.rs:385-394): when
the proxy definition contains a `:`, split it at the first `:` into the
local port and the remote hostport (taken literally); otherwise the whole
string is the local port and the remote part is empty. The local address
is always `0.0.0.0:` followed by the local port. The function never
returns an error. -/
def parse_proxy_addresses (proxySpec : String) :
    Except String (String × String) :=
  let cs := proxySpec.toList
  if cs.any (fun c => c == ':') then
    Except.ok
      (String.mk ("0.0.0.0:".toList ++ cs.takeWhile (fun c => c != ':')),
       String.mk ((cs.dropWhile (fun c => c != ':')).drop 1))
  else
    Except.ok (String.mk ("0.0.0.0:".toList ++ cs), "")

/-- C9: Proxy-spec parsing. `parse_proxy_addresses` returns `Ok` on every
input; a colon-free input `lp` yields `("0.0.0.0:" ++ lp, "")`
(transparent mode); an input with a colon, split at the first colon into
`lp` and `rest`, yields `("0.0.0.0:" ++ lp, rest)` with the upstream
taken literally. -/
theorem parse_proxy_addresses_spec (u s lp rest : String)
    (h1 : s.toList.all (fun c => c != ':') = true)
    (h2 : lp.toList.all (fun c => c != ':') = true) :
    (parse_proxy_addresses u).isOk = true ∧
    parse_proxy_addresses s = Except.ok ("0.0.0.0:" ++ s, "") ∧
    parse_proxy_addresses (lp ++ ":" ++ rest) =
      Except.ok ("0.0.0.0:" ++ lp, rest) := by
  refine ⟨?_, ?_, ?_⟩
  · simp only [parse_proxy_addresses]
    split <;> rfl
  · simp only [parse_proxy_addresses, any_colon_false s.toList h1,
      Bool.false_eq_true, if_false]
    rw [string_mk_append]
  · have h2m : ∀ c ∈ lp.toList, c ≠ ':' := by
      simpa [List.all_eq_true, bne_iff_ne] using h2
    have hsplit : (lp ++ ":" ++ rest).toList =
        lp.toList ++ ':' :: rest.toList := by
      rw [string_toList_append, string_toList_append, List.append_assoc]
      rfl
    simp only [parse_proxy_addresses, hsplit, any_colon_true, if_true,
      takeWhile_until_colon _ _ h2m, dropWhile_until_colon _ _ h2m,
      List.drop_succ_cons, List.drop_zero]
    rw [string_mk_append]
    rfl

/-- Witness for C9 at concrete proxy specifications: `"27111"`
(transparent) and `"27111:mongo.example.com:27017"` (static upstream). -/
theorem parse_proxy_addresses_spec_witness :
    ("27111" : String).toList.all (fun c => c != ':') = true ∧
    (("27111" : String).toList.all (fun c => c != ':') = true ∧
     ((parse_proxy_addresses "9999:a:b").isOk = true ∧
      parse_proxy_addresses "27111" = Except.ok ("0.0.0.0:" ++ "27111", "") ∧
      parse_proxy_addresses ("27111" ++ ":" ++ "mongo.example.com:27017") =
        Except.ok ("0.0.0.0:" ++ "27111", "mongo.example.com:27017"))) :=
  ⟨by decide, by decide,
    parse_proxy_addresses_spec "9999:a:b" "27111" "27111"
      "mongo.example.com:27017" (by decide) (by decide)⟩

/-- C10: Implicit connection accounting invariant. For every connection
whose handler runs to completion, exactly one of the disconnection
counter and the connection-errors counter receives exactly one increment,
labelled with that connection's client address: the former exactly when
`handle_connection` returned `Ok`, the latter otherwise; never both and
never neither. -/
theorem conn_handler_exactly_one (a : String) (r : Except ErrKind Unit) :
    (conn_handler_effect a r = ([a], []) ∨
     conn_handler_effect a r = ([], [a])) ∧
    (conn_handler_effect a r = ([a], []) ↔ r = Except.ok ()) ∧
    (conn_handler_effect a r).1.length + (conn_handler_effect a r).2.length
      = 1 := by
  cases r with
  | ok u => cases u; simp [conn_handler_effect]
  | error e => simp [conn_handler_effect]

end Mongoproxy
